import Mathlib

/- Verification development for the RAGViet retrieval service.

The definitions below are a shallow embedding of the Python sources:
  src/utils/vector_store.py   (VectorStore)
  src/utils/natural_language.py (greeting / meaningless-input heuristics)
  src/utils/auth.py           (AuthManager in-memory sessions)
  src/utils/database.py       (auth sessions, chat sessions, chat history)
  src/api/views.py            (generate_answer, ChatSendView, ChatHistoryView)

External machine-learning components (sentence embedding, FAISS kNN, the LLM
provider, the cross-encoder) are modelled as abstract parameters: an arbitrary
embedding function, an arbitrary ranked candidate list, an arbitrary LLM stub.
Everything downstream of those calls is translated statement by statement. -/

namespace RagViet

/-- A metadata entry of VectorStore.metadata, exactly the five fields written by
add_documents (vector_store.py lines 156-163): text, filename, page_number,
chunk_id, and user_id (None when the chunk metadata carried no user_id). -/
structure Meta where
  text : String
  filename : String
  page : Int
  chunkId : Int
  userId : Option String
deriving DecidableEq, Repr

/-- A search result: a copy of a metadata entry plus the L2 distance attached by
search. Distances are opaque to every property proved here and modelled as Int. -/
abbrev SearchResult := Meta × Int

/-- The filename filter of VectorStore.search (lines 209-212): an entry is dropped
when a filename filter is set and the entry filename differs. -/
def dropByFilename (filename : Option String) (meta : Meta) : Bool :=
  match filename with
  | some f => meta.filename != f
  | none => false

/-- The user filter of VectorStore.search (lines 213-217). The code reads
meta.get("user_id") and drops the entry only when that value is not None AND
differs from the filter: entries whose metadata carries no user_id pass. -/
def dropByUser (userId : Option String) (meta : Meta) : Bool :=
  match userId with
  | some u =>
    match meta.userId with
    | some mu => mu != u
    | none => false
  | none => false

/-- The filter-and-collect loop of VectorStore.search (lines 199-223). The
candidate list holds the (row index, distance) pairs produced by the FAISS kNN
in ascending distance order; IndexFlatL2 queried with k at most ntotal returns
valid nonnegative row indices, so indices are modelled as Nat and the code guard
idx < len(metadata) is kept. acc is the results list built so far; the loop
breaks as soon as topK results are kept. -/
def searchLoop (metadata : List Meta) (topK : Nat) (filename : Option String)
    (userId : Option String) : List (Nat × Int) → List SearchResult → List SearchResult
  | [], acc => acc
  | (idx, d) :: rest, acc =>
    if h : idx < metadata.length then
      let meta := metadata.get ⟨idx, h⟩
      if dropByFilename filename meta then
        searchLoop metadata topK filename userId rest acc
      else if dropByUser userId meta then
        searchLoop metadata topK filename userId rest acc
      else
        let acc2 := acc ++ [(meta, d)]
        if topK ≤ acc2.length then acc2
        else searchLoop metadata topK filename userId rest acc2
    else
      searchLoop metadata topK filename userId rest acc

/-- VectorStore.search, candidate-filtering stage: walk the kNN candidates and
keep at most topK entries surviving both filters (the surrounding code returns
[] when the index is empty or the encoder is missing, in which case the claims
about returned results hold vacuously). -/
def search (metadata : List Meta) (candidates : List (Nat × Int)) (topK : Nat)
    (filename : Option String) (userId : Option String) : List SearchResult :=
  searchLoop metadata topK filename userId candidates []

/-- Every result appended by the loop survives dropByUser, hence with a user
filter set its user_id is either the filtered user or absent. -/
theorem searchLoop_user (metadata : List Meta) (topK : Nat)
    (filename : Option String) (u : String) :
    ∀ (cands : List (Nat × Int)) (acc : List SearchResult),
      (∀ r ∈ acc, r.1.userId = some u ∨ r.1.userId = none) →
      ∀ r ∈ searchLoop metadata topK filename (some u) cands acc,
        r.1.userId = some u ∨ r.1.userId = none := by
  intro cands
  induction cands with
  | nil =>
    intro acc hacc r hr
    simpa [searchLoop] using hacc r hr
  | cons cd rest ih =>
    intro acc hacc r hr
    obtain ⟨idx, d⟩ := cd
    by_cases h : idx < metadata.length
    · simp only [searchLoop, dif_pos h] at hr
      set meta := metadata.get ⟨idx, h⟩ with hmeta
      by_cases hf : dropByFilename filename meta
      · rw [if_pos hf] at hr
        exact ih acc hacc r hr
      · rw [if_neg hf] at hr
        by_cases hu : dropByUser (some u) meta
        · rw [if_pos hu] at hr
          exact ih acc hacc r hr
        · rw [if_neg hu] at hr
          have hkeep : meta.userId = some u ∨ meta.userId = none := by
            revert hu
            unfold dropByUser
            cases hmu : meta.userId with
            | none => intro _; exact Or.inr rfl
            | some mu =>
              intro hne
              left
              simp only [bne_iff_ne, ne_eq, Decidable.not_not] at hne
              rw [hne]
          have hacc2 : ∀ r ∈ acc ++ [(meta, d)],
              r.1.userId = some u ∨ r.1.userId = none := by
            intro r hr2
            rcases List.mem_append.mp hr2 with h1 | h2
            · exact hacc r h1
            · rcases List.mem_singleton.mp h2 with rfl
              exact hkeep
          by_cases hk : topK ≤ (acc ++ [(meta, d)]).length
          · rw [if_pos hk] at hr
            exact hacc2 r hr
          · rw [if_neg hk] at hr
            exact ih _ hacc2 r hr
    · simp only [searchLoop, dif_neg h] at hr
      exact ih acc hacc r hr

/-- C1 is false as stated: a chunk whose metadata carries no user_id IS returned
by search under a user filter U1: the concrete one-entry store below returns its
ownerless chunk, whose user_id differs from U1. -/
theorem C1_counterexample :
    search [⟨"t", "a.pdf", 1, 0, none⟩] [(0, 0)] 20 none (some "U1") =
      [(⟨"t", "a.pdf", 1, 0, none⟩, 0)] ∧
    (⟨"t", "a.pdf", 1, 0, none⟩ : Meta).userId ≠ some "U1" := by
  decide

/-- C1 amended: for every call to VectorStore.search with a user filter U, every
returned result has user_id == U or carries no user_id; a chunk owned by a
different user never appears, but ownerless chunks pass the filter. -/
theorem C1_amended_search_tenant_filter (metadata : List Meta)
    (candidates : List (Nat × Int)) (topK : Nat) (filename : Option String)
    (u : String) (r : SearchResult)
    (hr : r ∈ search metadata candidates topK filename (some u)) :
    r.1.userId = some u ∨ r.1.userId = none := by
  exact searchLoop_user metadata topK filename u candidates []
    (by intro r h; cases h) r hr

/-- Witness for the amended C1 at a concrete input: a chunk owned by U1 is found
and indeed reported as owned by U1 or ownerless. -/
theorem C1_amended_search_tenant_filter_witness :
    (((⟨"t", "a.pdf", 1, 0, some "U1"⟩ : Meta), (0 : Int)) ∈
      search [⟨"t", "a.pdf", 1, 0, some "U1"⟩] [(0, 0)] 20 none (some "U1")) ∧
    (((⟨"t", "a.pdf", 1, 0, some "U1"⟩ : Meta), (0 : Int)).1.userId = some "U1" ∨
      ((⟨"t", "a.pdf", 1, 0, some "U1"⟩ : Meta), (0 : Int)).1.userId = none) := by
  refine ⟨by decide, ?_⟩
  exact C1_amended_search_tenant_filter [⟨"t", "a.pdf", 1, 0, some "U1"⟩]
    [(0, 0)] 20 none "U1" ((⟨"t", "a.pdf", 1, 0, some "U1"⟩ : Meta), (0 : Int))
    (by decide)

/-- Association list with last-write-wins lookup, modelling a Python dict (the
service never observes dict iteration order, so only get/set/delete matter). -/
def dictGet {β : Type} (d : List (String × β)) (k : String) : Option β :=
  (d.find? (fun e => e.1 == k)).map (fun e => e.2)

/-- Dict update d[k] = v. -/
def dictSet {β : Type} (d : List (String × β)) (k : String) (v : β) : List (String × β) :=
  (k, v) :: d.filter (fun e => e.1 != k)

/-- Dict deletion del d[k]. -/
def dictDel {β : Type} (d : List (String × β)) (k : String) : List (String × β) :=
  d.filter (fun e => e.1 != k)

theorem dictGet_del_self {β : Type} (d : List (String × β)) (k : String) :
    dictGet (dictDel d k) k = none := by
  unfold dictGet dictDel
  rw [List.find?_eq_none.mpr]
  · rfl
  · intro e he
    have := (List.mem_filter.mp he).2
    simpa [bne_iff_ne, ne_eq] using this

theorem dictGet_del_ne {β : Type} (d : List (String × β)) (k q : String) (h : q ≠ k) :
    dictGet (dictDel d k) q = dictGet d q := by
  unfold dictGet dictDel
  induction d with
  | nil => rfl
  | cons e rest ih =>
    by_cases he : e.1 = k
    · simp only [List.filter_cons]
      rw [if_neg (by simpa [bne_iff_ne] using he)]
      rw [ih]
      have : (e.1 == q) = false := by
        simp only [beq_eq_false_iff_ne, ne_eq]
        rw [he]
        exact fun hq => h hq.symm
      simp [List.find?, this]
    · simp only [List.filter_cons]
      rw [if_pos (by simpa [bne_iff_ne] using he)]
      by_cases hq : e.1 = q
      · simp [List.find?, hq]
      · have : (e.1 == q) = false := by simpa [beq_eq_false_iff_ne, ne_eq] using hq
        simp only [List.find?, this]
        exact ih

theorem dictGet_set_self {β : Type} (d : List (String × β)) (k : String) (v : β) :
    dictGet (dictSet d k v) k = some v := by
  simp [dictGet, dictSet, List.find?]

theorem dictGet_set_ne {β : Type} (d : List (String × β)) (k q : String) (v : β)
    (h : q ≠ k) :
    dictGet (dictSet d k v) q = dictGet d q := by
  unfold dictSet
  have : (k == q) = false := by
    simp only [beq_eq_false_iff_ne, ne_eq]
    exact fun hq => h hq.symm
  simp only [dictGet, List.find?, this]
  exact dictGet_del_ne d k q h

/-! ## C7: the save_index snapshot write -/

/-- Abstract file-system operations. The language includes rename so that the
temp-file-plus-rename discipline required by the spec is expressible; file
contents are abstract Nat identifiers. -/
inductive FsOp
  | makedirs (path : String)
  | writeFile (path : String) (content : Nat)
  | rename (src : String) (dst : String)
deriving DecidableEq, Repr

/-- Apply one file-system operation (directory creation does not affect file
contents in this model; rename moves the content of src to dst). -/
def fsApplyOp (fs : List (String × Nat)) : FsOp → List (String × Nat)
  | .makedirs _ => fs
  | .writeFile p c => dictSet fs p c
  | .rename src dst =>
    match dictGet fs src with
    | some c => dictSet (dictDel fs src) dst c
    | none => fs

/-- Run a trace of file-system operations. -/
def fsRun (fs : List (String × Nat)) (ops : List FsOp) : List (String × Nat) :=
  ops.foldl fsApplyOp fs

/-- The operation trace of VectorStore.save_index (vector_store.py lines
117-132): create the directory of index_path, write the FAISS index directly to
index_path (faiss.write_index), then write the metadata JSON directly to
metadata_path (json.dump on open(metadata_path, w)). The code uses no temp file
and no rename. -/
def saveIndexOps (indexPath metadataPath : String)
    (indexContent metadataContent : Nat) : List FsOp :=
  [FsOp.makedirs indexPath,
   FsOp.writeFile indexPath indexContent,
   FsOp.writeFile metadataPath metadataContent]

/-- C7: the snapshot write is NOT atomic-via-temp-file-plus-rename. The concrete
save_index trace contains no rename, writes both final paths in place, and
stopping after its second operation (a crash point between the two writes)
leaves the new index (content 1) next to the stale metadata (content 0). -/
theorem C7_save_index_not_atomic :
    ((saveIndexOps "index.faiss" "metadata.json" 1 1).any
      (fun op => match op with | FsOp.rename _ _ => true | _ => false) = false) ∧
    (FsOp.writeFile "index.faiss" 1 ∈ saveIndexOps "index.faiss" "metadata.json" 1 1) ∧
    (FsOp.writeFile "metadata.json" 1 ∈ saveIndexOps "index.faiss" "metadata.json" 1 1) ∧
    (dictGet (fsRun [("index.faiss", 0), ("metadata.json", 0)]
        ((saveIndexOps "index.faiss" "metadata.json" 1 1).take 2)) "index.faiss" = some 1) ∧
    (dictGet (fsRun [("index.faiss", 0), ("metadata.json", 0)]
        ((saveIndexOps "index.faiss" "metadata.json" 1 1).take 2)) "metadata.json" = some 0) := by
  decide

/-! ## C6: auth-session lifetime -/

/-- The user data stored per auth session (auth.py login, lines 62-66). -/
structure UserData where
  userId : String
  username : String
  email : String
deriving DecidableEq, Repr

/-- A timed auth event. AuthManager.login stores the token in the in-memory
sessions dict (auth.py line 67) and Database.save_auth_session upserts it with
created_at = now and expires_at = None (database.py lines 439-453);
AuthManager.logout deletes the in-memory entry (auth.py lines 78-83). The time
stamp records when the event happens; the code itself stores no expiry and
never consults a clock during verification. -/
inductive AuthEvent
  | login (token : String) (user : UserData) (time : Int)
  | logout (token : String) (time : Int)
deriving DecidableEq, Repr

/-- The wall-clock time of an event. -/
def AuthEvent.time : AuthEvent → Int
  | .login _ _ t => t
  | .logout _ t => t

/-- The session token an event concerns. -/
def AuthEvent.token : AuthEvent → String
  | .login tok _ _ => tok
  | .logout tok _ => tok

/-- Auth state: the AuthManager in-memory sessions dict, and the Mongo
auth_sessions collection keyed by session_id, storing (user, created_at,
expires_at). -/
structure AuthState where
  sessions : List (String × UserData)
  dbSessions : List (String × (UserData × Int × Option Int))

/-- One auth event applied to the state. Logins upsert both stores, the db
document carrying expires_at = None exactly as save_auth_session writes it;
logout (LogoutView -> AuthManager.logout) deletes only the in-memory entry. -/
def authStep (s : AuthState) : AuthEvent → AuthState
  | .login tok u t => ⟨dictSet s.sessions tok u, dictSet s.dbSessions tok (u, t, none)⟩
  | .logout tok _ => ⟨dictDel s.sessions tok, s.dbSessions⟩

/-- Run a list of auth events from the empty state. -/
def authRun (events : List AuthEvent) : AuthState :=
  events.foldl authStep ⟨[], []⟩

/-- AuthManager.get_user_from_session (auth.py lines 85-89): a plain dict
lookup. No time argument exists and no expiry is checked. -/
def getUserFromSession (s : AuthState) (token : Option String) : Option UserData :=
  match token with
  | none => none
  | some tok => dictGet s.sessions tok

/-- Database.get_auth_session (database.py lines 460-481): find the document by
session_id and return its user data; the stored expires_at (always None) is
never consulted. -/
def getAuthSession (s : AuthState) (token : String) : Option UserData :=
  (dictGet s.dbSessions token).map (fun e => e.1)

/-- Session verification as observable at wall-clock time t: the state is built
from the events that happened up to t (verification itself takes no clock). -/
def acceptedAt (events : List AuthEvent) (t : Int) (token : String) : Option UserData :=
  getUserFromSession (authRun (events.filter (fun e => decide (e.time ≤ t)))) (some token)

/-- Database-backed verification at time t. -/
def dbAcceptedAt (events : List AuthEvent) (t : Int) (token : String) : Option UserData :=
  getAuthSession (authRun (events.filter (fun e => decide (e.time ≤ t)))) token

/-- C6 is false as stated: a token issued at time 0 is still accepted by both
get_user_from_session and get_auth_session 8 days (691200 s) later, more than 7
days (604800 s) after issuance. -/
theorem C6_counterexample :
    acceptedAt [AuthEvent.login "tok" ⟨"u1", "alice", "a@ex.vn"⟩ 0] 691200 "tok" =
      some ⟨"u1", "alice", "a@ex.vn"⟩ ∧
    dbAcceptedAt [AuthEvent.login "tok" ⟨"u1", "alice", "a@ex.vn"⟩ 0] 691200 "tok" =
      some ⟨"u1", "alice", "a@ex.vn"⟩ ∧
    (691200 : Int) - 0 > 7 * 24 * 3600 := by
  decide

/-- Replay of the events concerning one token: a login overwrites the current
entry, a logout clears it. -/
def lastLogin (_cur : Option UserData) (e : AuthEvent) : Option UserData :=
  match e with
  | AuthEvent.login _ u _ => some u
  | AuthEvent.logout _ _ => none

/-- Dict lookup of a token in the in-memory sessions depends only on the events
concerning that token: the accumulated state is replayed over the filtered
event list. -/
theorem authFold_sessions_lookup (tok : String) :
    ∀ (events : List AuthEvent) (s : AuthState),
      dictGet ((events.foldl authStep s).sessions) tok =
        (events.filter (fun e => e.token == tok)).foldl lastLogin
          (dictGet s.sessions tok) := by
  intro events
  induction events with
  | nil => intro s; rfl
  | cons e rest ih =>
    intro s
    rw [List.foldl_cons, ih (authStep s e), List.filter_cons]
    cases e with
    | login tok2 u t =>
      by_cases h : tok2 = tok
      · rw [if_pos (by simp [AuthEvent.token, h])]
        rw [List.foldl_cons]
        have h1 : dictGet (authStep s (AuthEvent.login tok2 u t)).sessions tok = some u := by
          simp [authStep, h, dictGet_set_self]
        rw [h1]
        rfl
      · rw [if_neg (by simp [AuthEvent.token, h])]
        have h1 : dictGet (authStep s (AuthEvent.login tok2 u t)).sessions tok =
            dictGet s.sessions tok := by
          simp only [authStep]
          exact dictGet_set_ne s.sessions tok2 tok u (fun hq => h hq.symm)
        rw [h1]
    | logout tok2 t =>
      by_cases h : tok2 = tok
      · rw [if_pos (by simp [AuthEvent.token, h])]
        rw [List.foldl_cons]
        have h1 : dictGet (authStep s (AuthEvent.logout tok2 t)).sessions tok = none := by
          simp [authStep, h, dictGet_del_self]
        rw [h1]
        rfl
      · rw [if_neg (by simp [AuthEvent.token, h])]
        have h1 : dictGet (authStep s (AuthEvent.logout tok2 t)).sessions tok =
            dictGet s.sessions tok := by
          simp only [authStep]
          exact dictGet_del_ne s.sessions tok2 tok (fun hq => h hq.symm)
        rw [h1]

/-- C6 amended: auth sessions never expire server-side. If the only event about
a token is its login (no logout), then the token is accepted at EVERY later
time, however far beyond 7 days; only the browser cookie carries the 7-day
max-age (views.py COOKIE_MAX_AGE). -/
theorem C6_amended_sessions_never_expire (events : List AuthEvent) (tok : String)
    (u : UserData) (t0 t : Int)
    (hev : events.filter (fun e => e.token == tok) = [AuthEvent.login tok u t0])
    (hall : ∀ e ∈ events, e.time ≤ t) :
    acceptedAt events t tok = some u := by
  have hfull : events.filter (fun e => decide (e.time ≤ t)) = events := by
    apply List.filter_eq_self.mpr
    intro e he
    exact decide_eq_true (hall e he)
  unfold acceptedAt authRun
  rw [hfull]
  show dictGet ((events.foldl authStep ⟨[], []⟩).sessions) tok = some u
  rw [authFold_sessions_lookup tok events ⟨[], []⟩, hev]
  rfl

/-- Witness for the amended C6: the concrete single-login trace is accepted 8
days after issuance. -/
theorem C6_amended_sessions_never_expire_witness :
    ([AuthEvent.login "tok" ⟨"u1", "alice", "a@ex.vn"⟩ 0].filter
        (fun e => e.token == "tok") = [AuthEvent.login "tok" ⟨"u1", "alice", "a@ex.vn"⟩ 0]) ∧
    acceptedAt [AuthEvent.login "tok" ⟨"u1", "alice", "a@ex.vn"⟩ 0] 691200 "tok" =
      some ⟨"u1", "alice", "a@ex.vn"⟩ := by
  refine ⟨by decide, ?_⟩
  exact C6_amended_sessions_never_expire
    [AuthEvent.login "tok" ⟨"u1", "alice", "a@ex.vn"⟩ 0] "tok"
    ⟨"u1", "alice", "a@ex.vn"⟩ 0 691200 (by decide)
    (by intro e he; simp at he; subst he; decide)

/-! ## C2: the position invariant of the vector store -/

/-- An input chunk of add_documents: chunk["text"] plus its metadata dict
(the pdf_processor output fields, with user_id tagged by the upload view when
present). -/
structure ChunkIn where
  text : String
  filename : String
  page : Int
  chunkId : Int
  userId : Option String
deriving DecidableEq, Repr

/-- The metadata entry add_documents builds from an input chunk (vector_store.py
lines 156-163). -/
def chunkToMeta (c : ChunkIn) : Meta :=
  ⟨c.text, c.filename, c.page, c.chunkId, c.userId⟩

/-- The vector store state: the dense index as a list of vectors (in an
arbitrary embedding space E) and the parallel metadata list. The per-file map
is derived (fileIndex below) and not part of this state. -/
structure VSState (E : Type) where
  vectors : List E
  metadata : List Meta

/-- The case-insensitive temp-file name test of delete_temp_files_by_user:
re.compile(r'^tmp[a-z0-9_]+\.pdf$', re.IGNORECASE), matched against the whole
filename (vector_store.py line 294). -/
def isTempName (filename : String) : Bool :=
  let g := filename.toLower
  g.startsWith "tmp" && g.endsWith ".pdf" &&
    (let mid := (g.drop 3).dropRight 4
     !mid.isEmpty && mid.toList.all (fun c => c.isLower || c.isDigit || c == '_'))

/-- The keep predicate of delete_by_filename (vector_store.py lines 249-254):
with a user filter, keep unless both filename and user match; without one, keep
unless the filename matches. -/
def keepAfterDelete (filename : String) (userId : Option String) (m : Meta) : Bool :=
  match userId with
  | some u => !(m.filename == filename && m.userId == some u)
  | none => m.filename != filename

/-- The keep predicate of delete_temp_files_by_user (vector_store.py lines
296-313). A present but empty valid_filenames list is falsy in Python, hence
treated like None. -/
def keepAfterTempDelete (userId : String) (validFilenames : Option (List String))
    (m : Meta) : Bool :=
  match validFilenames with
  | some valid =>
    if valid.isEmpty then !(m.userId == some userId && isTempName m.filename)
    else !(m.userId == some userId &&
      (isTempName m.filename || !(valid.contains m.filename)))
  | none => !(m.userId == some userId && isTempName m.filename)

/-- A mutation of the vector store: the four operations named by the position
invariant. -/
inductive VSOp
  | addDocuments (chunks : List ChunkIn)
  | deleteByFilename (filename : String) (userId : Option String)
  | deleteTempFilesByUser (userId : String) (validFilenames : Option (List String))
  | clearAll

/-- Apply one mutation with the encoder available; embed is the sentence
encoder (deterministic per text per the Embedder contract, so a batch encode is
a map over the texts). add_documents appends vectors and metadata in the same
order (lines 134-170); the delete operations partition the metadata with their
keep predicate, no-op when nothing is dropped, reset to empty when nothing is
kept, and otherwise re-encode the kept texts into a fresh index (lines 241-341);
clear_all resets everything (lines 343-348). -/
def vsApply {E : Type} (embed : String → E) (s : VSState E) : VSOp → VSState E
  | .addDocuments chunks =>
    if chunks.isEmpty then s
    else ⟨s.vectors ++ chunks.map (fun c => embed c.text),
          s.metadata ++ chunks.map chunkToMeta⟩
  | .deleteByFilename filename userId =>
    let keep := s.metadata.filter (keepAfterDelete filename userId)
    if keep.length = s.metadata.length then s
    else if keep.length = 0 then ⟨[], []⟩
    else ⟨keep.map (fun m => embed m.text), keep⟩
  | .deleteTempFilesByUser userId valid =>
    let keep := s.metadata.filter (keepAfterTempDelete userId valid)
    if s.metadata.length - keep.length = 0 then s
    else if keep.length = 0 then ⟨[], []⟩
    else ⟨keep.map (fun m => embed m.text), keep⟩
  | .clearAll => ⟨[], []⟩

/-- Run a sequence of mutations from the fresh empty store. -/
def vsRun {E : Type} (embed : String → E) (ops : List VSOp) : VSState E :=
  ops.foldl (vsApply embed) ⟨[], []⟩

/-- The position invariant: the dense index holds exactly the embeddings of the
metadata texts, in the same order. -/
def PositionInv {E : Type} (embed : String → E) (s : VSState E) : Prop :=
  s.vectors = s.metadata.map (fun m => embed m.text)

theorem vsApply_preserves_inv {E : Type} (embed : String → E) (s : VSState E)
    (hs : PositionInv embed s) (op : VSOp) : PositionInv embed (vsApply embed s op) := by
  cases op with
  | addDocuments chunks =>
    simp only [vsApply]
    by_cases h : chunks.isEmpty
    · rw [if_pos h]; exact hs
    · rw [if_neg h]
      unfold PositionInv at hs ⊢
      simp only [List.map_append, List.map_map]
      rw [hs]
      rfl
  | deleteByFilename filename userId =>
    simp only [vsApply]
    unfold PositionInv
    split
    · exact hs
    · split
      · rfl
      · rfl
  | deleteTempFilesByUser userId valid =>
    simp only [vsApply]
    unfold PositionInv
    split
    · exact hs
    · split
      · rfl
      · rfl
  | clearAll => rfl

/-- C2: after any sequence of add_documents / delete_by_filename /
delete_temp_files_by_user / clear_all with the encoder available, the dense
index and the metadata list have the same length, and the i-th vector is the
embedding of the i-th metadata entry's text. -/
theorem C2_position_invariant (E : Type) (embed : String → E) (ops : List VSOp) :
    (vsRun embed ops).vectors.length = (vsRun embed ops).metadata.length ∧
    ∀ i : Nat, (vsRun embed ops).vectors[i]? =
      ((vsRun embed ops).metadata[i]?).map (fun m => embed m.text) := by
  have hinv : PositionInv embed (vsRun embed ops) := by
    unfold vsRun
    induction ops using List.reverseRecOn with
    | nil => rfl
    | append_singleton ops op ih =>
      rw [List.foldl_append, List.foldl_cons, List.foldl_nil]
      exact vsApply_preserves_inv embed _ ih op
  constructor
  · rw [hinv, List.length_map]
  · intro i
    rw [hinv, List.getElem?_map]

/-! ## C4: the chat-history endpoint -/

/-- A chat_history document (database.py save_chat_message, lines 237-244). -/
structure ChatTurn where
  userId : String
  message : String
  response : String
  selectedFile : Option String
  sessionId : Option String
  timestamp : Int
deriving DecidableEq, Repr

/-- A chat_sessions document (database.py create_chat_session, lines 300-308;
the fields relevant here). -/
structure ChatSession where
  sessionId : String
  userId : String
  title : String
deriving DecidableEq, Repr

/-- The chat database: chat_sessions and chat_history collections. -/
structure ChatDB where
  chatSessions : List ChatSession
  chatHistory : List ChatTurn
deriving Repr

/-- Database.get_session_messages (database.py lines 343-365): find the
chat_history documents by session_id ONLY, no user condition, sorted ascending
by timestamp. -/
def getSessionMessages (db : ChatDB) (sessionId : String) : List ChatTurn :=
  (db.chatHistory.filter (fun m => m.sessionId == some sessionId)).insertionSort
    (fun a b => a.timestamp ≤ b.timestamp)

/-- An HTTP response of the history endpoint: the status code and the returned
messages. -/
structure HistoryResponse where
  status : Nat
  messages : List ChatTurn
deriving DecidableEq, Repr

/-- ChatHistoryView.get (views.py lines 670-693): authenticate the caller from
the request token and answer 200 with get_session_messages(session_id). The
requested chat-session id is never compared with the caller: there is no
ownership lookup and no 404 branch. -/
def chatHistoryView (auth : AuthState) (db : ChatDB) (token : Option String)
    (sessionId : String) : HistoryResponse :=
  match token with
  | none => ⟨401, []⟩
  | some tok =>
    match getUserFromSession auth (some tok) with
    | none => ⟨401, []⟩
    | some _ => ⟨200, getSessionMessages db sessionId⟩

/-- C4 fails on the code: caller Bob (a different authenticated user) requests
the history of Alice's chat session sessA and receives status 200 together with
Alice's chat turn, instead of the claimed 404 with no messages. -/
theorem C4_history_leaks_other_users_turns :
    chatHistoryView
        (authRun [AuthEvent.login "tokB" ⟨"bob-id", "bob", "b@ex.vn"⟩ 0])
        ⟨[⟨"sessA", "alice-id", "t"⟩],
         [⟨"alice-id", "câu hỏi mật", "trả lời mật", none, some "sessA", 1⟩]⟩
        (some "tokB") "sessA" =
      ⟨200, [⟨"alice-id", "câu hỏi mật", "trả lời mật", none, some "sessA", 1⟩]⟩ ∧
    ("bob-id" : String) ≠ "alice-id" ∧
    (chatHistoryView
        (authRun [AuthEvent.login "tokB" ⟨"bob-id", "bob", "b@ex.vn"⟩ 0])
        ⟨[⟨"sessA", "alice-id", "t"⟩],
         [⟨"alice-id", "câu hỏi mật", "trả lời mật", none, some "sessA", 1⟩]⟩
        (some "tokB") "sessA").status ≠ 404 := by
  decide

/-! ## C5: the natural-language short-circuit of chat send

Character classes: Python's re module is in Unicode mode, so \w covers ASCII
alphanumerics, the underscore and letters of every script. The modelled input
alphabet is ASCII plus the lowercase Vietnamese letters that the source itself
enumerates in its character classes; real-valued ratio comparisons are modelled
in ℚ. -/

/-- The lowercase Vietnamese letters enumerated by natural_language.py. -/
def vietLetters : String :=
  "áàảãạăắằẳẵặâấầẩẫậéèẻẽẹêếềểễệíìỉĩịóòỏõọôốồổỗộơớờởỡợúùủũụưứừửữựýỳỷỹỵđ"

/-- Membership in the Vietnamese letter class. -/
def isVietLetter (c : Char) : Bool := vietLetters.contains c

/-- A letter: ASCII letter or enumerated Vietnamese letter. -/
def isLetterChar (c : Char) : Bool := c.isAlpha || isVietLetter c

/-- A regex word character (\w) over the modelled alphabet. -/
def isWordChar (c : Char) : Bool := isLetterChar c || c.isDigit || c == '_'

/-- Python str.strip(): drop whitespace from both ends. -/
def pyStrip (cs : List Char) : List Char :=
  ((cs.dropWhile (fun c => c.isWhitespace)).reverse.dropWhile
    (fun c => c.isWhitespace)).reverse

/-- Python substring containment (sub in s), also re.search of a literal. -/
def hasInfix (sub : List Char) : List Char → Bool
  | [] => sub.isEmpty
  | c :: rest => sub.isPrefixOf (c :: rest) || hasInfix sub rest

/-- normalize_text (natural_language.py lines 38-42): lowercase, strip, then
delete every character that is neither a word character nor whitespace. -/
def normalizeText (text : String) : String :=
  String.mk ((pyStrip (text.toList.map Char.toLower)).filter
    (fun c => isWordChar c || c.isWhitespace))

/-- The canned greeting reply of NATURAL_RESPONSES. -/
def greetReply : String :=
  "Xin chào! Tôi là chatbot trợ lý hành chính Việt Nam. Tôi có thể giúp bạn tìm hiểu thông tin từ các tài liệu hành chính. Bạn cần hỗ trợ gì?"

/-- The canned how-are-you reply of NATURAL_RESPONSES. -/
def howReply : String :=
  "Cảm ơn bạn đã hỏi! Tôi là một chatbot nên không có cảm xúc, nhưng tôi luôn sẵn sàng giúp bạn. Bạn có câu hỏi gì về tài liệu hành chính không?"

/-- The canned who-are-you reply of NATURAL_RESPONSES. -/
def whoReply : String :=
  "Tôi là chatbot trợ lý hành chính Việt Nam, được xây dựng bằng công nghệ RAG (Retrieval-Augmented Generation). Tôi có thể giúp bạn tìm kiếm và trả lời các câu hỏi về nội dung trong các tài liệu hành chính mà bạn đã upload. Bạn muốn hỏi gì về tài liệu?"

/-- The canned what-do-you-do reply of NATURAL_RESPONSES. -/
def doReply : String :=
  "Tôi là chatbot trợ lý hành chính Việt Nam. Nhiệm vụ của tôi là giúp bạn tìm kiếm và trả lời các câu hỏi về nội dung trong các tài liệu hành chính. Bạn có thể upload file PDF và đặt câu hỏi, tôi sẽ tìm thông tin liên quan và trả lời cho bạn."

/-- The canned thank-you reply of NATURAL_RESPONSES. -/
def thanksReply : String :=
  "Không có gì! Rất vui được giúp bạn. Nếu bạn có thêm câu hỏi nào khác về tài liệu, đừng ngần ngại hỏi nhé!"

/-- The canned goodbye reply of NATURAL_RESPONSES. -/
def byeReply : String :=
  "Tạm biệt! Chúc bạn một ngày tốt lành. Nếu có câu hỏi gì, hãy quay lại nhé!"

/-- The NATURAL_RESPONSES table (natural_language.py lines 8-35). -/
def naturalResponses : List (String × String) :=
  [("chào", greetReply), ("hello", greetReply), ("hi", greetReply),
   ("chào bạn", greetReply),
   ("bạn khỏe không", howReply), ("bạn thế nào", howReply),
   ("hôm nay bạn thế nào", howReply), ("bạn có khỏe không", howReply),
   ("bạn là ai", whoReply), ("giới thiệu về bạn", whoReply),
   ("bạn làm gì", doReply),
   ("cảm ơn", thanksReply), ("thanks", thanksReply), ("thank you", thanksReply),
   ("tạm biệt", byeReply), ("bye", byeReply), ("goodbye", byeReply)]

/-- Consume a literal from the front of the input, for regex literal parts. -/
def dropLit : List Char → List Char → Option (List Char)
  | cs, [] => some cs
  | [], _ :: _ => none
  | c :: cs, l :: ls => if c == l then dropLit cs ls else none

/-- Consume one-or-more whitespace characters (regex \s+, greedy; every literal
that follows \s+ in these patterns starts with a non-space character, so the
maximal munch is exact). -/
def dropWs1 : List Char → Option (List Char)
  | [] => none
  | c :: cs => if c.isWhitespace then some (cs.dropWhile (fun x => x.isWhitespace)) else none

/-- The (\s+|$) tail of the greeting patterns: end of input or a whitespace
character next. -/
def boundaryOk : List Char → Bool
  | [] => true
  | c :: _ => c.isWhitespace

/-- re.match of ^(chào|hello|hi)(\s+|$). -/
def matchGreeting (s : List Char) : Bool :=
  [("chào" : String), "hello", "hi"].any (fun w =>
    match dropLit s w.toList with
    | some rest => boundaryOk rest
    | none => false)

/-- re.match of ^bạn\s+(là|khỏe|thế nào|có khỏe), no trailing boundary. -/
def matchBanIs (s : List Char) : Bool :=
  match dropLit s ("bạn" : String).toList with
  | some r1 =>
    match dropWs1 r1 with
    | some r2 =>
      [("là" : String), "khỏe", "thế nào", "có khỏe"].any
        (fun w => (dropLit r2 w.toList).isSome)
    | none => false
  | none => false

/-- re.match of ^hôm\s+nay\s+bạn. -/
def matchHomNay (s : List Char) : Bool :=
  match dropLit s ("hôm" : String).toList with
  | some r1 =>
    match dropWs1 r1 with
    | some r2 =>
      match dropLit r2 ("nay" : String).toList with
      | some r3 =>
        match dropWs1 r3 with
        | some r4 => (dropLit r4 ("bạn" : String).toList).isSome
        | none => false
      | none => false
    | none => false
  | none => false

/-- re.match of ^giới\s+thiệu. -/
def matchGioiThieu (s : List Char) : Bool :=
  match dropLit s ("giới" : String).toList with
  | some r1 =>
    match dropWs1 r1 with
    | some r2 => (dropLit r2 ("thiệu" : String).toList).isSome
    | none => false
  | none => false

/-- One alternative of ^(cảm\s+ơn|thanks|thank\s+you)(\s+|$) and of the goodbye
pattern: words joined by \s+, then the boundary. -/
def matchWordsThenBoundary (s : List Char) : List String → Bool
  | [] => boundaryOk s
  | w :: ws =>
    match dropLit s w.toList with
    | some r1 =>
      match ws with
      | [] => boundaryOk r1
      | _ :: _ =>
        match dropWs1 r1 with
        | some r2 => matchWordsThenBoundary r2 ws
        | none => false
    | none => false

/-- re.match of ^(cảm\s+ơn|thanks|thank\s+you)(\s+|$). -/
def matchThanks (s : List Char) : Bool :=
  matchWordsThenBoundary s ["cảm", "ơn"] || matchWordsThenBoundary s ["thanks"] ||
    matchWordsThenBoundary s ["thank", "you"]

/-- re.match of ^(tạm\s+biệt|bye|goodbye)(\s+|$). -/
def matchBye (s : List Char) : Bool :=
  matchWordsThenBoundary s ["tạm", "biệt"] || matchWordsThenBoundary s ["bye"] ||
    matchWordsThenBoundary s ["goodbye"]

/-- get_natural_response (natural_language.py lines 78-106): normalize, look up
the table, then try the greeting regexes in order. -/
def getNaturalResponse (query : String) : Option String :=
  let normalized := normalizeText query
  match dictGet naturalResponses normalized with
  | some r => some r
  | none =>
    let s := normalized.toList
    if matchGreeting s then some greetReply
    else if matchBanIs s then some whoReply
    else if matchHomNay s then some howReply
    else if matchGioiThieu s then some whoReply
    else if matchThanks s then some thanksReply
    else if matchBye s then some byeReply
    else none

/-- Python str.count: non-overlapping occurrences of sub, scanning left to
right (0 for the empty pattern, which the source never queries). -/
def pyCount (sub : List Char) : List Char → Nat
  | [] => 0
  | c :: rest =>
    if h : sub.isEmpty then 0
    else if h2 : sub.isPrefixOf (c :: rest) then
      pyCount sub ((c :: rest).drop sub.length) + 1
    else pyCount sub rest
termination_by s => s.length
decreasing_by
  · have h1 : 1 ≤ sub.length := by
      cases sub with
      | nil => simp at h
      | cons a l => simp
    simp only [List.length_drop, List.length_cons]
    omega
  · simp

/-- Leading repetitions of a pattern: how many consecutive copies of the
pattern the input starts with (the occurrences loop of is_meaningless_query,
natural_language.py lines 214-223). -/
def leadReps (pattern : List Char) (cs : List Char) : Nat :=
  if h : pattern.isEmpty then 0
  else if h2 : pattern.isPrefixOf cs then leadReps pattern (cs.drop pattern.length) + 1
  else 0
termination_by cs.length
decreasing_by
  have h1 : 1 ≤ pattern.length := by
    cases pattern with
    | nil => simp at h
    | cons a l => simp
  have h3 : pattern.length ≤ cs.length := (List.isPrefixOf_iff_prefix.mp h2).length_le
  simp only [List.length_drop]
  omega

/-- Maximal runs of characters satisfying p, inner loop: cur is the reversed
run being collected. -/
def runsByGo (p : Char → Bool) (cur : List Char) : List Char → List (List Char)
  | [] => if cur.isEmpty then [] else [cur.reverse]
  | c :: rest =>
    if p c then runsByGo p (c :: cur) rest
    else if cur.isEmpty then runsByGo p [] rest
    else cur.reverse :: runsByGo p [] rest

/-- Maximal runs of characters satisfying p, in order (used for \b-delimited
word extraction and for str.split()). -/
def runsBy (p : Char → Bool) (cs : List Char) : List (List Char) :=
  runsByGo p [] cs

/-- The maximum run of identical consecutive characters, inner loop state
(prev char, current run, best so far); natural_language.py lines 140-147. -/
def maxRunGo (prev : Char) (cur best : Nat) : List Char → Nat
  | [] => best
  | c :: rest =>
    if c == prev then maxRunGo c (cur + 1) (max best (cur + 1)) rest
    else maxRunGo c 1 best rest

/-- max_consecutive of is_meaningless_query: 1 for short inputs, else the
longest run of one character. -/
def maxRun : List Char → Nat
  | [] => 1
  | c :: rest => maxRunGo c 1 1 rest

/-- The count of the most common character (Counter(...).most_common(1)),
0 when empty. -/
def mostCommonCount (cs : List Char) : Nat :=
  (cs.map (fun c => cs.count c)).foldr max 0

/-- Count of non-overlapping two-character matches of an alternation of
two-character classes (re.findall on pairs: the scan consumes two characters on
a match, one otherwise). -/
def pairScan (p : Char → Char → Bool) : List Char → Nat
  | c1 :: c2 :: rest =>
    if p c1 c2 then pairScan p rest + 1 else pairScan p (c2 :: rest)
  | _ => 0

/-- re.findall(r'\b[letters]+\b', lowered text): the maximal \w-runs whose
characters are all letters (a run containing a digit or underscore has no
word boundary inside it, so it yields nothing). -/
def pyWords (lowered : List Char) : List String :=
  (runsBy isWordChar lowered).filterMap
    (fun run => if run.all isLetterChar then some (String.mk run) else none)

/-- The closed common-word set of is_meaningless_query (natural_language.py
lines 175-186). -/
def commonWords : List String :=
  ["của", "và", "là", "có", "được", "trong", "với", "cho", "từ", "về", "này",
   "đó", "nào", "bạn", "tôi", "chúng", "họ", "mình", "ta", "người", "cái",
   "con", "cây", "nhà", "đi", "làm", "nói", "biết", "thấy", "nghe", "xem",
   "học", "đọc", "viết", "nghĩ", "muốn", "gì", "sao", "thế", "đâu", "khi",
   "nếu", "vì", "nên", "mà", "để",
   "the", "is", "are", "was", "were", "be", "been", "have", "has", "had",
   "do", "does", "did", "a", "an", "and", "or", "but", "in", "on", "at",
   "to", "for", "of", "with", "by", "this", "that", "these", "those",
   "what", "when", "where", "why", "how", "who", "which",
   "can", "could", "will", "would", "should", "may", "might", "must",
   "i", "you", "he", "she", "it", "we", "they", "me", "him", "her", "us", "them"]

/-- The question words of is_meaningless_query (lines 254-255). -/
def questionWords : List String :=
  ["what", "when", "where", "why", "how", "who", "which",
   "gì", "sao", "thế", "nào", "đâu", "khi", "ai"]

/-- The action words of is_meaningless_query (lines 258-260). -/
def actionWords : List String :=
  ["làm", "nói", "biết", "thấy", "nghe", "xem", "học", "đọc", "viết",
   "nghĩ", "muốn", "là", "có", "được", "do", "does", "did", "is", "are",
   "was", "were", "have", "has", "had", "can", "could", "will", "would"]

/-- The keyboard-walk patterns of is_meaningless_query (lines 267-270). -/
def keyboardPatterns : List String :=
  ["qwerty", "asdfgh", "zxcvbn", "qazwsx", "abcdef", "ghijkl", "mnopqr",
   "stuvwx", "yz", "123456", "abcdefgh", "qwertyuiop", "asdfghjkl", "zxcvbnm"]

/-- The repeating-substring double loop of is_meaningless_query (lines
162-171): every window of length 2..min(4, n/2) is counted non-overlapping in
the cleaned text and the covered fraction compared against 0.6 / 0.7 (the
source's real-number ratios are modelled as exact rationals). -/
def substringRepCheck (clean : List Char) : Bool :=
  let n := clean.length
  ((List.range (min 5 (n / 2 + 1))).drop 2).any (fun len =>
    (List.range (n - len * 2 + 1)).any (fun i =>
      let sub := (clean.drop i).take len
      let cnt := pyCount sub clean
      if cnt ≥ 3 && sub.length ≥ 2 then
        decide (mkRat (cnt * len : Nat) n > mkRat 3 5)
      else if cnt ≥ 2 && sub.length ≥ 2 then
        decide (mkRat (cnt * len : Nat) n ≥ mkRat 7 10)
      else false))

/-- The digit-letter adjacency class of line 245. -/
def digitLetterPair (c1 c2 : Char) : Bool :=
  (isLetterChar c1 && c2.isDigit) || (c1.isDigit && isLetterChar c2)

/-- The letter-nonword adjacency class of line 249. -/
def specialPair (c1 c2 : Char) : Bool :=
  (isLetterChar c1 && !isWordChar c2) || (!isWordChar c1 && isLetterChar c2)

/-- is_meaningless_query (natural_language.py lines 109-277), transcribed check
by check; every branch of the source either returns True or falls through, so
the checks combine by disjunction under the two early-False guards. -/
def isMeaninglessQuery (query : String) : Bool :=
  if (pyStrip query.toList).isEmpty then false
  else
    let tl := pyStrip query.toList
    if tl.length < 3 then false
    else
      let lowChars := tl.map Char.toLower
      let clean := lowChars.filter
        (fun c => !(c.isWhitespace || !isWordChar c || c.isDigit))
      let n := clean.length
      let mc := mostCommonCount clean
      let words := pyWords lowChars
      let meaningful := words.filter
        (fun w => w.length ≥ 2 && (commonWords.contains w || w.length ≥ 4))
      let uc := clean.dedup.length
      let ranges := (List.range (min 5 (n / 2 + 1))).drop 2
      let wc := (words.map (fun w => words.count w)).foldr max 0
      (tl.all (fun c => c.isDigit || c.isWhitespace || !isWordChar c)) ||
      (tl.all (fun c => c.isDigit)) ||
      ((tl.all (fun c => !isWordChar c || c.isWhitespace)) && !(tl.any isLetterChar)) ||
      (n < 3) ||
      (maxRun clean ≥ 3) ||
      (decide (mkRat mc n ≥ mkRat 1 2) && n ≥ 4) ||
      (decide (mkRat mc n > mkRat 2 5) && n ≥ 6) ||
      (substringRepCheck clean) ||
      (meaningful.isEmpty && n ≥ 4 &&
        (decide (mkRat uc n < mkRat 3 10) ||
         (uc ≤ 2 && n ≥ 4) || (uc == 3 && n ≥ 8) || (n ≥ 10 && uc ≤ 4))) ||
      (n ≥ 6 &&
        (ranges.any (fun pl => n % pl == 0 &&
            clean == List.flatten (List.replicate (n / pl) (clean.take pl))) ||
         ranges.any (fun pl => leadReps (clean.take pl) clean ≥ 3))) ||
      (n ≥ 8 && meaningful.isEmpty && uc ≤ 4) ||
      (words.length ≥ 3 &&
        ((wc ≥ 3 && words.length < 10) ||
         (decide (mkRat wc words.length ≥ mkRat 1 2) && words.length ≥ 4))) ||
      (meaningful.length ≥ 1 && meaningful.length ≤ 3 &&
        (meaningful.filter (fun w => w.length ≥ 4)).isEmpty && n ≥ 8 &&
        meaningful.dedup.length ≤ 2) ||
      (tl.any (fun c => c.isDigit) && n ≥ 6 &&
        pairScan digitLetterPair tl ≥ 3 && meaningful.isEmpty) ||
      (pairScan specialPair tl ≥ 3 && meaningful.isEmpty) ||
      (meaningful.length ≥ 4 &&
        !(questionWords.any (fun q => hasInfix q.toList lowChars)) &&
        !(actionWords.any (fun a => hasInfix a.toList lowChars)) &&
        (runsBy (fun c => !c.isWhitespace) tl).length ≥ 5) ||
      (meaningful.isEmpty &&
        keyboardPatterns.any (fun p => hasInfix p.toList clean && n ≥ p.length))

/-- get_meaningless_response (natural_language.py lines 280-287): the canned
"please ask a meaningful question" reply. -/
def getMeaninglessResponse : String :=
  "Xin lỗi, tôi không hiểu câu hỏi của bạn. Vui lòng đặt câu hỏi rõ ràng và có ý nghĩa về nội dung trong các tài liệu đã upload. Ví dụ: \x27Quy định về thủ tục hành chính là gì?\x27 hoặc \x27Tài liệu này nói về điều gì?\x27"

/-- The decision path of ChatSendView.post (views.py lines 487-584) for an
authenticated caller with no selected file: strip the message, consult ONLY
get_natural_response, check the caller's chunk count, then invoke
vector_store.search. totalChunks is get_stats(user)["total_chunks"],
searchResults the value of vector_store.search, and pipelineAnswer abstracts
the expand/rerank/generate_answer stage reached when search returns results.
Returns the response text and whether retrieval (search) was invoked. -/
def chatSendCore (rawMessage : String) (totalChunks : Nat)
    (searchResults : List SearchResult) (pipelineAnswer : String) : String × Bool :=
  let message := String.mk (pyStrip rawMessage.toList)
  if message.isEmpty then ("Vui lòng nhập câu hỏi", false)
  else
    match getNaturalResponse message with
    | some r => (r, false)
    | none =>
      if totalChunks == 0 then
        ("⚠️ Chưa có tài liệu nào được upload. Vui lòng upload file PDF trước khi đặt câu hỏi.", false)
      else if searchResults.isEmpty then
        ("Không tìm thấy thông tin liên quan trong các tài liệu đã upload.", true)
      else (pipelineAnswer, true)

/-- C5 fails on the code: the input "fdfgfgf" IS classified meaningless by the
heuristics (repetition ratio 4/7 on the cleaned letters), yet ChatSendView
never consults is_meaningless_query: get_natural_response returns None, the
send path invokes retrieval, and the returned reply is not the canned
"please ask a meaningful question" response. -/
theorem C5_meaningless_reply_never_returned :
    isMeaninglessQuery "fdfgfgf" = true ∧
    getNaturalResponse "fdfgfgf" = none ∧
    (chatSendCore "fdfgfgf" 5 [] "đáp án").2 = true ∧
    (chatSendCore "fdfgfgf" 5 [] "đáp án").1 ≠ getMeaninglessResponse := by
  refine ⟨?_, ?_, ?_, ?_⟩ <;> decide

/-! ## C8, C9: the LLM call of generate_answer -/

/-- An LLM chat-completion request, identified by model and max_tokens (all the
calls of generate_answer share the same prompt and temperature 0.1, so these
two fields determine a request). -/
structure LLMCall where
  model : String
  maxTokens : Nat
deriving DecidableEq, Repr

/-- The configured primary Groq model (views.py get_llm_client, line 65). -/
def primaryModel : String := "llama-3.3-70b-versatile"

/-- The ordered fallback model list (views.py line 201). -/
def fallbackModels : List String :=
  ["mistral-saba-24b", "llama-3.1-8b-instant", "llama-3.1-70b-versatile"]

/-- Python str.endswith on character lists. -/
def listEndsWith (cs suffix : List Char) : Bool := suffix.isSuffixOf cs

/-- The incompleteness test of generate_answer (views.py lines 168-179), on the
stripped reply; Python split("\n") yields count-of-newlines + 1 parts. -/
def isIncomplete (answer : String) : Bool :=
  listEndsWith (pyStrip answer.toList) "như sau:".toList ||
  listEndsWith (pyStrip answer.toList) "như sau".toList ||
  listEndsWith (pyStrip answer.toList) "bao gồm:".toList ||
  listEndsWith (pyStrip answer.toList) "bao gồm".toList ||
  listEndsWith (pyStrip answer.toList) "cụ thể:".toList ||
  listEndsWith (pyStrip answer.toList) "cụ thể".toList ||
  listEndsWith (pyStrip answer.toList) "gồm:".toList ||
  (listEndsWith (pyStrip answer.toList) [':'] &&
    decide ((pyStrip answer.toList).count '\n' + 1 < 3))

/-- The degraded reply of the outer exception handler (views.py line 225):
the error text followed by the raw grouped context. -/
def errReply (e contextText : String) : String :=
  "⚠️ Lỗi khi tạo câu trả lời: " ++ e ++ "\n\nThông tin từ tài liệu:\n\n" ++ contextText

/-- The fallback loop of generate_answer (views.py lines 198-218): try each
fallback model once with max_tokens 4096, return the first success; when all
fail, the primary error is re-raised and the outer handler returns the degraded
context reply. Accumulates the trace of requests made. -/
def fallbackLoop (stub : LLMCall → Except String String)
    (contextText modelError : String) :
    List String → List LLMCall → String × List LLMCall
  | [], calls => (errReply modelError contextText, calls)
  | m :: rest, calls =>
    match stub ⟨m, 4096⟩ with
    | .ok a => (a, calls ++ [⟨m, 4096⟩])
    | .error _ => fallbackLoop stub contextText modelError rest (calls ++ [⟨m, 4096⟩])

/-- The LLM stage of generate_answer (views.py lines 158-225), parameterized by
a stub provider mapping each distinct request to a reply or a provider error.
First call: primary model, max_tokens 4096. A nonempty reply matching an
incompleteness pattern triggers exactly one retry at max_tokens 8192, keeping
the longer reply (a failed retry keeps the first reply). A primary-call error
enters the fallback loop. Returns the reply and the request trace. -/
def generateAnswerLLM (stub : LLMCall → Except String String)
    (contextText : String) : String × List LLMCall :=
  match stub ⟨primaryModel, 4096⟩ with
  | .ok answer =>
    if !answer.toList.isEmpty && isIncomplete answer then
      match stub ⟨primaryModel, 8192⟩ with
      | .ok newAnswer =>
        (if answer.length < newAnswer.length then newAnswer else answer,
         [⟨primaryModel, 4096⟩, ⟨primaryModel, 8192⟩])
      | .error _ => (answer, [⟨primaryModel, 4096⟩, ⟨primaryModel, 8192⟩])
    else (answer, [⟨primaryModel, 4096⟩])
  | .error modelError =>
    fallbackLoop stub contextText modelError fallbackModels [⟨primaryModel, 4096⟩]

/-- C8: when the first reply trims to one of the claim's incompleteness
suffixes and the retry succeeds, exactly one retry with max_tokens 8192 is
made and the longer of the two replies is returned; in particular the second
reply whenever it is longer. -/
theorem C8_completeness_retry (stub : LLMCall → Except String String)
    (contextText a b : String)
    (h1 : stub ⟨primaryModel, 4096⟩ = Except.ok a)
    (hsuf : listEndsWith (pyStrip a.toList) "như sau:".toList = true ∨
      listEndsWith (pyStrip a.toList) "bao gồm:".toList = true ∨
      listEndsWith (pyStrip a.toList) "cụ thể:".toList = true ∨
      listEndsWith (pyStrip a.toList) "gồm:".toList = true ∨
      (listEndsWith (pyStrip a.toList) [':'] = true ∧
        (pyStrip a.toList).count '\n' + 1 < 3))
    (h2 : stub ⟨primaryModel, 8192⟩ = Except.ok b) :
    (generateAnswerLLM stub contextText).2 =
      [⟨primaryModel, 4096⟩, ⟨primaryModel, 8192⟩] ∧
    (generateAnswerLLM stub contextText).1 =
      (if a.length < b.length then b else a) ∧
    (a.length < b.length → (generateAnswerLLM stub contextText).1 = b) := by
  have hne : a.toList.isEmpty = false := by
    cases hl : a.toList with
    | nil =>
      exfalso
      rw [hl] at hsuf
      rcases hsuf with h | h | h | h | ⟨h, _⟩ <;> exact absurd h (by decide)
    | cons c cs => rfl
  have hinc : isIncomplete a = true := by
    unfold isIncomplete
    simp only [Bool.or_eq_true, Bool.and_eq_true, decide_eq_true_eq]
    rcases hsuf with h | h | h | h | hh <;> tauto
  have hcond : (!a.toList.isEmpty && isIncomplete a) = true := by
    rw [hne, hinc]
    rfl
  unfold generateAnswerLLM
  rw [h1]
  simp only [hcond, if_true]
  rw [h2]
  refine ⟨rfl, rfl, ?_⟩
  intro hlt
  simp [if_pos hlt]

/-- The stub provider of the C8 witness: the primary call at 4096 tokens
returns a reply ending in the incompleteness suffix, the 8192-token retry a
longer one. -/
def stubC8 : LLMCall → Except String String :=
  fun c => if c.maxTokens == 8192 then Except.ok "Các bước gồm A, B và C."
    else Except.ok "Các bước như sau:"

/-- Witness for C8: on the concrete stub, the returned answer is the longer
second reply and the trace is exactly the primary call plus one retry. -/
theorem C8_completeness_retry_witness :
    (generateAnswerLLM stubC8 "ctx").1 = "Các bước gồm A, B và C." ∧
    (generateAnswerLLM stubC8 "ctx").2 =
      [⟨primaryModel, 4096⟩, ⟨primaryModel, 8192⟩] := by
  have h := C8_completeness_retry stubC8 "ctx" "Các bước như sau:"
    "Các bước gồm A, B và C." (by rfl) (Or.inl (by decide)) (by rfl)
  exact ⟨h.2.2 (by decide), h.1⟩

/-- The fallback loop returns the first success, after calling each failing
model once in order. -/
theorem fallbackLoop_first_ok (stub : LLMCall → Except String String)
    (contextText modelError : String) :
    ∀ (ms : List String) (calls : List LLMCall) (j : Nat) (hj : j < ms.length)
      (r : String),
      (∀ i (hi : i < j), ∃ ei,
        stub ⟨ms.get ⟨i, lt_trans hi hj⟩, 4096⟩ = Except.error ei) →
      stub ⟨ms.get ⟨j, hj⟩, 4096⟩ = Except.ok r →
      fallbackLoop stub contextText modelError ms calls =
        (r, calls ++ (ms.take (j + 1)).map (fun m => ⟨m, 4096⟩)) := by
  intro ms
  induction ms with
  | nil => intro calls j hj; exact absurd hj (by simp)
  | cons m rest ih =>
    intro calls j hj r hfail hok
    cases j with
    | zero =>
      have hm : stub ⟨m, 4096⟩ = Except.ok r := hok
      have hstep : fallbackLoop stub contextText modelError (m :: rest) calls =
          (r, calls ++ [⟨m, 4096⟩]) := by
        simp only [fallbackLoop]
        rw [hm]
      rw [hstep]
      simp
    | succ k =>
      obtain ⟨e0, he0⟩ := hfail 0 (Nat.succ_pos k)
      have hm : stub ⟨m, 4096⟩ = Except.error e0 := he0
      have hstep : fallbackLoop stub contextText modelError (m :: rest) calls =
          fallbackLoop stub contextText modelError rest (calls ++ [⟨m, 4096⟩]) := by
        simp only [fallbackLoop]
        rw [hm]
      have hk : k < rest.length := Nat.lt_of_succ_lt_succ hj
      have hok2 : stub ⟨rest.get ⟨k, hk⟩, 4096⟩ = Except.ok r := hok
      have hfail2 : ∀ i (hi : i < k), ∃ ei,
          stub ⟨rest.get ⟨i, lt_trans hi hk⟩, 4096⟩ = Except.error ei :=
        fun i hi => hfail (i + 1) (Nat.succ_lt_succ hi)
      have hrec := ih (calls ++ [(⟨m, 4096⟩ : LLMCall)]) k hk r hfail2 hok2
      rw [hstep, hrec]
      simp [List.append_assoc]

/-- When every model in the list fails, the fallback loop returns the degraded
context reply after calling each model once. -/
theorem fallbackLoop_all_fail (stub : LLMCall → Except String String)
    (contextText modelError : String) :
    ∀ (ms : List String) (calls : List LLMCall),
      (∀ m ∈ ms, ∃ em, stub ⟨m, 4096⟩ = Except.error em) →
      fallbackLoop stub contextText modelError ms calls =
        (errReply modelError contextText, calls ++ ms.map (fun m => ⟨m, 4096⟩)) := by
  intro ms
  induction ms with
  | nil => intro calls _; simp [fallbackLoop]
  | cons m rest ih =>
    intro calls hfail
    obtain ⟨e0, he0⟩ := hfail m (List.mem_cons_self m rest)
    have hstep : fallbackLoop stub contextText modelError (m :: rest) calls =
        fallbackLoop stub contextText modelError rest (calls ++ [⟨m, 4096⟩]) := by
      simp only [fallbackLoop]
      rw [he0]
    have hrec := ih (calls ++ [(⟨m, 4096⟩ : LLMCall)])
      (fun x hx => hfail x (List.mem_cons_of_mem m hx))
    rw [hstep, hrec]
    simp [List.append_assoc]

/-- C9: on a primary-model provider error, generate_answer walks the ordered
fallback list, stops at the first model that succeeds and returns that reply,
with the successful model called exactly once; and when the primary and every
fallback model fail, it returns the raw grouped context behind the explanatory
error prefix instead of raising. -/
theorem C9_model_fallback (stub : LLMCall → Except String String)
    (contextText e : String)
    (hp : stub ⟨primaryModel, 4096⟩ = Except.error e) :
    (∀ j (hj : j < fallbackModels.length) (r : String),
      (∀ i (hi : i < j), ∃ ei,
        stub ⟨fallbackModels.get ⟨i, lt_trans hi hj⟩, 4096⟩ = Except.error ei) →
      stub ⟨fallbackModels.get ⟨j, hj⟩, 4096⟩ = Except.ok r →
      (generateAnswerLLM stub contextText).1 = r ∧
      (generateAnswerLLM stub contextText).2 =
        ⟨primaryModel, 4096⟩ :: (fallbackModels.take (j + 1)).map (fun m => ⟨m, 4096⟩) ∧
      (generateAnswerLLM stub contextText).2.count
        ⟨fallbackModels.get ⟨j, hj⟩, 4096⟩ = 1) ∧
    ((∀ m ∈ fallbackModels, ∃ em, stub ⟨m, 4096⟩ = Except.error em) →
      (generateAnswerLLM stub contextText).1 = errReply e contextText) := by
  constructor
  · intro j hj r hfail hok
    have hrun : generateAnswerLLM stub contextText =
        (r, [⟨primaryModel, 4096⟩] ++ (fallbackModels.take (j + 1)).map (fun m => ⟨m, 4096⟩)) := by
      unfold generateAnswerLLM
      rw [hp]
      exact fallbackLoop_first_ok stub contextText e fallbackModels
        [⟨primaryModel, 4096⟩] j hj r hfail hok
    refine ⟨by rw [hrun], by rw [hrun]; rfl, ?_⟩
    rw [hrun]
    have hjt : j < (fallbackModels.take (j + 1)).length := by
      simp only [List.length_take]
      omega
    have hget : (fallbackModels.take (j + 1)).get ⟨j, hjt⟩ = fallbackModels.get ⟨j, hj⟩ := by
      simp [List.getElem_take]
    have hmem : fallbackModels.get ⟨j, hj⟩ ∈ fallbackModels.take (j + 1) :=
      hget ▸ List.get_mem _ _ _
    have hnd : (fallbackModels.take (j + 1)).Nodup :=
      (List.take_sublist _ _).nodup (by decide)
    have hcnt1 : (fallbackModels.take (j + 1)).count (fallbackModels.get ⟨j, hj⟩) = 1 :=
      List.count_eq_one_of_mem hnd hmem
    have hinj : Function.Injective (fun m : String => (⟨m, 4096⟩ : LLMCall)) := by
      intro x y hxy
      simpa using hxy
    have hnotmem : (⟨fallbackModels.get ⟨j, hj⟩, 4096⟩ : LLMCall) ∉
        [(⟨primaryModel, 4096⟩ : LLMCall)] := by
      simp only [List.mem_singleton]
      intro hcontra
      have hm : fallbackModels.get ⟨j, hj⟩ = primaryModel := by
        have := congrArg LLMCall.model hcontra
        simpa using this
      have hmem2 : primaryModel ∈ fallbackModels := hm ▸ List.get_mem _ _ _
      exact absurd hmem2 (by decide)
    show List.count _ (_ ++ _) = 1
    rw [List.count_append, List.count_eq_zero.mpr hnotmem,
      List.count_map_of_injective _ _ hinj, hcnt1]
  · intro hfail
    have hstep : generateAnswerLLM stub contextText =
        fallbackLoop stub contextText e fallbackModels [⟨primaryModel, 4096⟩] := by
      unfold generateAnswerLLM
      rw [hp]
    rw [hstep, fallbackLoop_all_fail stub contextText e fallbackModels
      [⟨primaryModel, 4096⟩] hfail]

/-- The stub provider of the C9 witness: every model errors except the second
fallback model. -/
def stubC9 : LLMCall → Except String String :=
  fun c => if c.model == "llama-3.1-8b-instant" then Except.ok "Trả lời B"
    else Except.error "lỗi nhà cung cấp"

/-- Witness for C9: on the concrete stub failing the primary and the first
fallback, the reply of the second fallback is returned and that model is called
exactly once. -/
theorem C9_model_fallback_witness :
    (generateAnswerLLM stubC9 "ctx").1 = "Trả lời B" ∧
    (generateAnswerLLM stubC9 "ctx").2.count ⟨"llama-3.1-8b-instant", 4096⟩ = 1 := by
  have h := (C9_model_fallback stubC9 "ctx" "lỗi nhà cung cấp" (by rfl)).1
    1 (by decide) "Trả lời B"
    (by
      intro i hi
      interval_cases i
      exact ⟨"lỗi nhà cung cấp", by rfl⟩)
    (by rfl)
  exact ⟨h.1, h.2.2⟩

/-! ## C3, C10: adjacent-chunk expansion -/

/-- The dedup key of get_adjacent_chunks: (filename, page_number, chunk_id)
(vector_store.py lines 388 and 403). -/
def metaKey (m : Meta) : String × Int × Int := (m.filename, m.page, m.chunkId)

/-- The per-file order of _build_file_index: ascending (page_number, chunk_id). -/
def pageChunkLe (a b : Meta) : Prop :=
  a.page < b.page ∨ (a.page = b.page ∧ a.chunkId ≤ b.chunkId)

instance : DecidableRel pageChunkLe := fun a b => by
  unfold pageChunkLe
  exact inferInstance

/-- Ascending (filename, page, chunk_id): the order of the final sort of
get_adjacent_chunks (vector_store.py lines 408-412). -/
def keyLe (a b : Meta) : Prop :=
  a.filename < b.filename ∨ (a.filename = b.filename ∧
    (a.page < b.page ∨ (a.page = b.page ∧ a.chunkId ≤ b.chunkId)))

instance : DecidableRel keyLe := fun a b => by
  unfold keyLe
  exact inferInstance

theorem keyLe_total (a b : Meta) : keyLe a b ∨ keyLe b a := by
  unfold keyLe
  rcases lt_trichotomy a.filename b.filename with h | h | h
  · exact Or.inl (Or.inl h)
  · rcases lt_trichotomy a.page b.page with h2 | h2 | h2
    · exact Or.inl (Or.inr ⟨h, Or.inl h2⟩)
    · rcases le_total a.chunkId b.chunkId with h3 | h3
      · exact Or.inl (Or.inr ⟨h, Or.inr ⟨h2, h3⟩⟩)
      · exact Or.inr (Or.inr ⟨h.symm, Or.inr ⟨h2.symm, h3⟩⟩)
    · exact Or.inr (Or.inr ⟨h.symm, Or.inl h2⟩)
  · exact Or.inr (Or.inl h)

theorem keyLe_trans (a b c : Meta) : keyLe a b → keyLe b c → keyLe a c := by
  unfold keyLe
  intro hab hbc
  rcases hab with h1 | ⟨h1, hp1⟩ <;> rcases hbc with h2 | ⟨h2, hp2⟩
  · exact Or.inl (lt_trans h1 h2)
  · exact Or.inl (lt_of_lt_of_le h1 (le_of_eq h2))
  · exact Or.inl (lt_of_le_of_lt (le_of_eq h1) h2)
  · refine Or.inr ⟨h1.trans h2, ?_⟩
    rcases hp1 with hq1 | ⟨hq1, hc1⟩ <;> rcases hp2 with hq2 | ⟨hq2, hc2⟩ <;> omega

instance : IsTotal Meta keyLe := ⟨keyLe_total⟩

instance : IsTrans Meta keyLe := ⟨keyLe_trans⟩

/-- The file-index list for one filename (_build_file_index, vector_store.py
lines 82-88): the metadata entries carrying that filename, in ascending
(page_number, chunk_id) order. -/
def fileIndex (metadata : List Meta) (filename : String) : List Meta :=
  (metadata.filter (fun m => m.filename == filename)).insertionSort pageChunkLe

/-- Append a chunk unless its key is already present. seen_chunks in
get_adjacent_chunks is exactly the key set of the expanded list: the code
always extends the two together. -/
def addNew (acc : List Meta) (m : Meta) : List Meta :=
  if metaKey m ∈ acc.map metaKey then acc else acc ++ [m]

/-- The neighbor candidates contributed by one seed (vector_store.py lines
393-406): the seed-file entries whose page is within page_range of the seed
page and is not the seed page itself, in file-index order. No user condition
appears anywhere. -/
def adjacentOf (metadata : List Meta) (seed : Meta) (pageRange : Int) : List Meta :=
  (fileIndex metadata seed.filename).filter
    (fun m => decide (|m.page - seed.page| ≤ pageRange) && (m.page != seed.page))

/-- get_adjacent_chunks (vector_store.py lines 370-415): dedup the seeds by
key, append the deduped neighbors of every seed, then sort ascending by
(filename, page, chunk_id). -/
def getAdjacentChunks (metadata : List Meta) (chunks : List Meta)
    (pageRange : Int) : List Meta :=
  if chunks.isEmpty then []
  else
    ((chunks.foldl (fun acc seed =>
        (adjacentOf metadata seed pageRange).foldl addNew acc)
      (chunks.foldl addNew [])).insertionSort keyLe)

theorem mem_addNew (acc : List Meta) (m x : Meta) (hx : x ∈ addNew acc m) :
    x ∈ acc ∨ x = m := by
  unfold addNew at hx
  split at hx
  · exact Or.inl hx
  · rcases List.mem_append.mp hx with h | h
    · exact Or.inl h
    · exact Or.inr (List.mem_singleton.mp h)

theorem keys_addNew_mono (acc : List Meta) (m : Meta) (k : String × Int × Int)
    (hk : k ∈ acc.map metaKey) : k ∈ (addNew acc m).map metaKey := by
  unfold addNew
  split
  · exact hk
  · rw [List.map_append]
    exact List.mem_append.mpr (Or.inl hk)

theorem key_mem_addNew (acc : List Meta) (m : Meta) :
    metaKey m ∈ (addNew acc m).map metaKey := by
  unfold addNew
  split
  · assumption
  · rw [List.map_append]
    exact List.mem_append.mpr (Or.inr (List.mem_singleton.mpr rfl))

theorem keys_addNew_nodup (acc : List Meta) (m : Meta)
    (h : (acc.map metaKey).Nodup) : ((addNew acc m).map metaKey).Nodup := by
  unfold addNew
  split
  · exact h
  · rw [List.map_append]
    simp only [List.map_cons, List.map_nil, List.nodup_append, List.nodup_cons,
      List.not_mem_nil, not_false_iff, List.nodup_nil, and_true, true_and]
    constructor
    · exact h
    · intro a ha
      simp only [List.mem_singleton]
      intro hcontra
      subst hcontra
      exact absurd ha (by assumption)

theorem foldl_addNew_mem :
    ∀ (l acc : List Meta) (x : Meta), x ∈ l.foldl addNew acc → x ∈ acc ∨ x ∈ l := by
  intro l
  induction l with
  | nil => intro acc x hx; exact Or.inl hx
  | cons a l ih =>
    intro acc x hx
    rw [List.foldl_cons] at hx
    rcases ih (addNew acc a) x hx with h | h
    · rcases mem_addNew acc a x h with h2 | h2
      · exact Or.inl h2
      · exact Or.inr (h2 ▸ List.mem_cons_self a l)
    · exact Or.inr (List.mem_cons_of_mem a h)

theorem foldl_addNew_keys_mono :
    ∀ (l acc : List Meta) (k : String × Int × Int),
      k ∈ acc.map metaKey → k ∈ (l.foldl addNew acc).map metaKey := by
  intro l
  induction l with
  | nil => intro acc k hk; exact hk
  | cons a l ih =>
    intro acc k hk
    rw [List.foldl_cons]
    exact ih (addNew acc a) k (keys_addNew_mono acc a k hk)

theorem foldl_addNew_keys_cover :
    ∀ (l acc : List Meta) (x : Meta), x ∈ l →
      metaKey x ∈ (l.foldl addNew acc).map metaKey := by
  intro l
  induction l with
  | nil => intro acc x hx; cases hx
  | cons a l ih =>
    intro acc x hx
    rw [List.foldl_cons]
    rcases List.mem_cons.mp hx with h | h
    · subst h
      exact foldl_addNew_keys_mono l (addNew acc x) (metaKey x) (key_mem_addNew acc x)
    · exact ih (addNew acc a) x h

theorem foldl_addNew_keys_nodup :
    ∀ (l acc : List Meta), (acc.map metaKey).Nodup →
      ((l.foldl addNew acc).map metaKey).Nodup := by
  intro l
  induction l with
  | nil => intro acc h; exact h
  | cons a l ih =>
    intro acc h
    rw [List.foldl_cons]
    exact ih (addNew acc a) (keys_addNew_nodup acc a h)

/-- The expanded list before the final sort. -/
def expandedChunks (metadata : List Meta) (chunks : List Meta)
    (pageRange : Int) : List Meta :=
  chunks.foldl (fun acc seed => (adjacentOf metadata seed pageRange).foldl addNew acc)
    (chunks.foldl addNew [])

theorem expanded_mem (metadata : List Meta) (pageRange : Int) :
    ∀ (l : List Meta) (acc : List Meta) (x : Meta),
      x ∈ l.foldl (fun acc seed =>
        (adjacentOf metadata seed pageRange).foldl addNew acc) acc →
      x ∈ acc ∨ ∃ s ∈ l, x ∈ adjacentOf metadata s pageRange := by
  intro l
  induction l with
  | nil => intro acc x hx; exact Or.inl hx
  | cons a l ih =>
    intro acc x hx
    rw [List.foldl_cons] at hx
    rcases ih _ x hx with h | ⟨s, hs, hmem⟩
    · rcases foldl_addNew_mem _ acc x h with h2 | h2
      · exact Or.inl h2
      · exact Or.inr ⟨a, List.mem_cons_self a l, h2⟩
    · exact Or.inr ⟨s, List.mem_cons_of_mem a hs, hmem⟩

theorem expanded_keys_mono (metadata : List Meta) (pageRange : Int) :
    ∀ (l : List Meta) (acc : List Meta) (k : String × Int × Int),
      k ∈ acc.map metaKey →
      k ∈ (l.foldl (fun acc seed =>
        (adjacentOf metadata seed pageRange).foldl addNew acc) acc).map metaKey := by
  intro l
  induction l with
  | nil => intro acc k hk; exact hk
  | cons a l ih =>
    intro acc k hk
    rw [List.foldl_cons]
    exact ih _ k (foldl_addNew_keys_mono _ acc k hk)

theorem expanded_keys_cover (metadata : List Meta) (pageRange : Int) :
    ∀ (l : List Meta) (acc : List Meta) (s x : Meta), s ∈ l →
      x ∈ adjacentOf metadata s pageRange →
      metaKey x ∈ (l.foldl (fun acc seed =>
        (adjacentOf metadata seed pageRange).foldl addNew acc) acc).map metaKey := by
  intro l
  induction l with
  | nil => intro acc s x hs; cases hs
  | cons a l ih =>
    intro acc s x hs hx
    rw [List.foldl_cons]
    rcases List.mem_cons.mp hs with h | h
    · subst h
      exact expanded_keys_mono metadata pageRange l _ (metaKey x)
        (foldl_addNew_keys_cover _ acc x hx)
    · exact ih _ s x h hx

theorem expanded_keys_nodup (metadata : List Meta) (pageRange : Int) :
    ∀ (l : List Meta) (acc : List Meta), (acc.map metaKey).Nodup →
      ((l.foldl (fun acc seed =>
        (adjacentOf metadata seed pageRange).foldl addNew acc) acc).map metaKey).Nodup := by
  intro l
  induction l with
  | nil => intro acc h; exact h
  | cons a l ih =>
    intro acc h
    rw [List.foldl_cons]
    exact ih _ (foldl_addNew_keys_nodup _ acc h)

theorem countP_key_eq_one (out : List Meta) (k : String × Int × Int)
    (hnd : (out.map metaKey).Nodup) (hk : k ∈ out.map metaKey) :
    out.countP (fun c => decide (metaKey c = k)) = 1 := by
  induction out with
  | nil => cases hk
  | cons a l ih =>
    rw [List.map_cons, List.nodup_cons] at hnd
    rw [List.countP_cons]
    rcases List.mem_cons.mp hk with h | h
    · have hz : l.countP (fun c => decide (metaKey c = k)) = 0 := by
        rw [List.countP_eq_zero]
        intro c hc
        simp only [decide_eq_true_eq]
        intro hck
        have hmm : metaKey c ∈ List.map metaKey l := List.mem_map_of_mem metaKey hc
        rw [hck, h] at hmm
        exact hnd.1 hmm
      rw [hz]
      simp [h.symm]
    · have h1 : l.countP (fun c => decide (metaKey c = k)) = 1 := ih hnd.2 h
      have hne : ¬(metaKey a = k) := fun hak => hnd.1 (hak ▸ h)
      rw [h1]
      simp [hne]

/-- C3: get_adjacent_chunks selects neighbors by (filename, page) alone: every
stored chunk sharing a seed's filename whose page lies within page_range of
the seed page (and differs from it) contributes its key to the output — with
no condition whatsoever on its user_id, so chunks of a different owner with the
same filename are pulled in. -/
theorem C3_adjacency_ignores_user (metadata chunks : List Meta) (R : Int)
    (m s : Meta) (hm : m ∈ metadata) (hs : s ∈ chunks)
    (hfile : m.filename = s.filename) (hnear : |m.page - s.page| ≤ R)
    (hne : m.page ≠ s.page) :
    ∃ c ∈ getAdjacentChunks metadata chunks R, metaKey c = metaKey m := by
  have hnemp : chunks.isEmpty = false := by
    cases chunks with
    | nil => cases hs
    | cons a l => rfl
  have hmfi : m ∈ fileIndex metadata s.filename := by
    unfold fileIndex
    rw [List.mem_insertionSort]
    exact List.mem_filter.mpr ⟨hm, by simp [hfile]⟩
  have hmadj : m ∈ adjacentOf metadata s R := by
    unfold adjacentOf
    refine List.mem_filter.mpr ⟨hmfi, ?_⟩
    simp only [Bool.and_eq_true, decide_eq_true_eq, bne_iff_ne, ne_eq]
    exact ⟨hnear, hne⟩
  have hkey : metaKey m ∈ (expandedChunks metadata chunks R).map metaKey :=
    expanded_keys_cover metadata R chunks _ s m hs hmadj
  obtain ⟨c, hc, hck⟩ := List.mem_map.mp hkey
  refine ⟨c, ?_, hck⟩
  unfold getAdjacentChunks
  rw [hnemp]
  simp only [Bool.false_eq_true, if_false]
  rw [List.mem_insertionSort]
  exact hc

/-- Witness for C3 at a concrete cross-tenant store: user u2's chunk on page 2
of f.pdf is pulled in as a neighbor of user u1's seed on page 1 of a file with
the same name. -/
theorem C3_adjacency_ignores_user_witness :
    ((⟨"t2", "f.pdf", 2, 0, some "u2"⟩ : Meta) ∈
      [(⟨"t1", "f.pdf", 1, 0, some "u1"⟩ : Meta), ⟨"t2", "f.pdf", 2, 0, some "u2"⟩]) ∧
    ((⟨"t1", "f.pdf", 1, 0, some "u1"⟩ : Meta) ∈ [(⟨"t1", "f.pdf", 1, 0, some "u1"⟩ : Meta)]) ∧
    (∃ c ∈ getAdjacentChunks
        [(⟨"t1", "f.pdf", 1, 0, some "u1"⟩ : Meta), ⟨"t2", "f.pdf", 2, 0, some "u2"⟩]
        [(⟨"t1", "f.pdf", 1, 0, some "u1"⟩ : Meta)] 2,
      metaKey c = metaKey (⟨"t2", "f.pdf", 2, 0, some "u2"⟩ : Meta)) := by
  refine ⟨by decide, by decide, ?_⟩
  exact C3_adjacency_ignores_user
    [(⟨"t1", "f.pdf", 1, 0, some "u1"⟩ : Meta), ⟨"t2", "f.pdf", 2, 0, some "u2"⟩]
    [(⟨"t1", "f.pdf", 1, 0, some "u1"⟩ : Meta)] 2
    ⟨"t2", "f.pdf", 2, 0, some "u2"⟩ ⟨"t1", "f.pdf", 1, 0, some "u1"⟩
    (by decide) (by decide) rfl (by decide) (by decide)

/-- C10: every output chunk either carries a seed's key or is adjacent to a
seed (same filename, page within R, different page); every seed key occurs
exactly once in the output; and the output is sorted ascending by
(filename, page, chunk_id). -/
theorem C10_adjacency_contract (metadata chunks : List Meta) (R : Int) :
    (∀ c ∈ getAdjacentChunks metadata chunks R,
      (∃ s ∈ chunks, metaKey c = metaKey s) ∨
      (∃ s ∈ chunks, c.filename = s.filename ∧ |c.page - s.page| ≤ R ∧ c.page ≠ s.page)) ∧
    (∀ s ∈ chunks, (getAdjacentChunks metadata chunks R).countP
        (fun c => decide (metaKey c = metaKey s)) = 1) ∧
    List.Sorted keyLe (getAdjacentChunks metadata chunks R) := by
  by_cases hemp : chunks.isEmpty
  · have hout : getAdjacentChunks metadata chunks R = [] := by
      unfold getAdjacentChunks
      rw [hemp]
      rfl
    rw [hout]
    refine ⟨(by intro c hc; cases hc), ?_, List.sorted_nil⟩
    intro s hs
    have : chunks = [] := List.isEmpty_iff.mp hemp
    subst this
    cases hs
  · have hout : getAdjacentChunks metadata chunks R =
        (expandedChunks metadata chunks R).insertionSort keyLe := by
      unfold getAdjacentChunks expandedChunks
      rw [Bool.eq_false_iff.mpr hemp]
      simp only [Bool.false_eq_true, if_false]
    refine ⟨?_, ?_, ?_⟩
    · intro c hc
      rw [hout, List.mem_insertionSort] at hc
      rcases expanded_mem metadata R chunks _ c hc with h | ⟨s, hs, hmem⟩
      · rcases foldl_addNew_mem chunks [] c h with h2 | h2
        · cases h2
        · exact Or.inl ⟨c, h2, rfl⟩
      · right
        refine ⟨s, hs, ?_⟩
        unfold adjacentOf at hmem
        have hcond := (List.mem_filter.mp hmem).2
        have hfi := (List.mem_filter.mp hmem).1
        simp only [Bool.and_eq_true, decide_eq_true_eq, bne_iff_ne, ne_eq] at hcond
        have hfile : c.filename = s.filename := by
          unfold fileIndex at hfi
          rw [List.mem_insertionSort] at hfi
          have := (List.mem_filter.mp hfi).2
          simpa using this
        exact ⟨hfile, hcond.1, hcond.2⟩
    · intro s hs
      have hp : List.Perm ((expandedChunks metadata chunks R).insertionSort keyLe)
          (expandedChunks metadata chunks R) := List.perm_insertionSort keyLe _
      rw [hout, hp.countP_eq]
      refine countP_key_eq_one _ _ ?_ ?_
      · exact expanded_keys_nodup metadata R chunks _
          (foldl_addNew_keys_nodup chunks [] List.nodup_nil)
      · exact expanded_keys_mono metadata R chunks _ (metaKey s)
          (foldl_addNew_keys_cover chunks [] s hs)
    · rw [hout]
      exact List.sorted_insertionSort keyLe _

/-- Witness for C10 at a concrete store: the seed key occurs exactly once in
the output and the output is sorted. -/
theorem C10_adjacency_contract_witness :
    ((⟨"t1", "f.pdf", 1, 0, some "u1"⟩ : Meta) ∈ [(⟨"t1", "f.pdf", 1, 0, some "u1"⟩ : Meta)]) ∧
    (getAdjacentChunks
        [(⟨"t1", "f.pdf", 1, 0, some "u1"⟩ : Meta), ⟨"t2", "f.pdf", 2, 0, some "u2"⟩]
        [(⟨"t1", "f.pdf", 1, 0, some "u1"⟩ : Meta)] 2).countP
      (fun c => decide (metaKey c = metaKey (⟨"t1", "f.pdf", 1, 0, some "u1"⟩ : Meta))) = 1 ∧
    List.Sorted keyLe (getAdjacentChunks
        [(⟨"t1", "f.pdf", 1, 0, some "u1"⟩ : Meta), ⟨"t2", "f.pdf", 2, 0, some "u2"⟩]
        [(⟨"t1", "f.pdf", 1, 0, some "u1"⟩ : Meta)] 2) := by
  refine ⟨by decide, ?_, ?_⟩
  · exact (C10_adjacency_contract
      [(⟨"t1", "f.pdf", 1, 0, some "u1"⟩ : Meta), ⟨"t2", "f.pdf", 2, 0, some "u2"⟩]
      [(⟨"t1", "f.pdf", 1, 0, some "u1"⟩ : Meta)] 2).2.1
      ⟨"t1", "f.pdf", 1, 0, some "u1"⟩ (by decide)
  · exact (C10_adjacency_contract
      [(⟨"t1", "f.pdf", 1, 0, some "u1"⟩ : Meta), ⟨"t2", "f.pdf", 2, 0, some "u2"⟩]
      [(⟨"t1", "f.pdf", 1, 0, some "u1"⟩ : Meta)] 2).2.2

end RagViet
